import Mathlib

/-!
# Verification of the copycat submission service

A shallow embedding of the content-addressed submission/retrieval protocol of
the `copycat` pastebin-style service (Go sources: `main.go`, the S3/codec file
defining `FileObject`, and the database file defining `SubmitUpload`,
`GetUpload`, `isValidHex`).

Conventions of the embedding:
* Go byte slices are `List Nat` with each entry a byte value.
* Go strings are Lean `String`; the byte view of a string is its UTF-8
  encoding (`strBytes`), matching Go's string representation.
* 32-bit machine arithmetic is `Nat` with explicit `% 2^32` masking.
* The `crypto/sha1` digest is implemented concretely (FIPS 180 SHA-1) so that
  every hash in the development is a real, computable value; it is validated
  below against the standard test vectors for `""` and `"abc"`.
* Fallible Go operations return `Except`/`Option`; a Go panic is modelled as a
  dedicated error constructor.
-/

set_option maxRecDepth 100000
set_option maxHeartbeats 4000000

namespace Copycat

/-! ## SHA-1 (`crypto/sha1`), over byte lists, 32-bit words as `Nat` mod 2^32 -/

def pow32 : Nat := 4294967296

/-- Bitwise complement on a 32-bit word. -/
def not32 (x : Nat) : Nat := 4294967295 ^^^ x

/-- Left-rotation of a 32-bit word by `n` bits. -/
def rotl32 (n x : Nat) : Nat :=
  ((x * 2 ^ n) % pow32) ||| (x / 2 ^ (32 - n))

/-- Big-endian 8-byte encoding of a (64-bit) length value. -/
def be64 (n : Nat) : List Nat :=
  [n / 2 ^ 56 % 256, n / 2 ^ 48 % 256, n / 2 ^ 40 % 256, n / 2 ^ 32 % 256,
   n / 2 ^ 24 % 256, n / 2 ^ 16 % 256, n / 2 ^ 8 % 256, n % 256]

/-- SHA-1 message padding: append `0x80`, zero bytes up to 56 mod 64, then the
bit length as a big-endian 64-bit integer. -/
def sha1Pad (msg : List Nat) : List Nat :=
  let len := msg.length
  let zeros := (64 + 56 - (len + 1) % 64) % 64
  msg ++ [128] ++ List.replicate zeros 0 ++ be64 (len * 8)

/-- Split a byte list into consecutive 64-byte blocks, structurally recursive
on a fuel bound so that it reduces inside the kernel. -/
def chunk64Fuel : Nat → List Nat → List (List Nat)
  | 0, _ => []
  | _, [] => []
  | fuel + 1, l => l.take 64 :: chunk64Fuel fuel (l.drop 64)

/-- Split a byte list into consecutive 64-byte blocks (length assumed a
multiple of 64, as produced by `sha1Pad`). -/
def chunk64 (l : List Nat) : List (List Nat) := chunk64Fuel l.length l

/-- Assemble a big-endian 32-bit word from four bytes. -/
def word32 (b0 b1 b2 b3 : Nat) : Nat :=
  (b0 * 2 ^ 24 + b1 * 2 ^ 16 + b2 * 2 ^ 8 + b3) % pow32

/-- The 16 initial message-schedule words of one 64-byte block. -/
def blockWords : List Nat → List Nat
  | b0 :: b1 :: b2 :: b3 :: rest => word32 b0 b1 b2 b3 :: blockWords rest
  | _ => []

/-- Extend the 16 block words to the 80-word SHA-1 schedule. -/
def sha1Extend (w16 : Array Nat) : Array Nat :=
  (List.range 64).foldl
    (fun w _ =>
      let i := w.size
      w.push (rotl32 1 ((w.getD (i - 3) 0) ^^^ (w.getD (i - 8) 0) ^^^
        (w.getD (i - 14) 0) ^^^ (w.getD (i - 16) 0))))
    w16

/-- One SHA-1 compression round. `s` is `(a, b, c, d, e)`. -/
def sha1Round (s : Nat × Nat × Nat × Nat × Nat) (i wi : Nat) :
    Nat × Nat × Nat × Nat × Nat :=
  let (a, b, c, d, e) := s
  let f :=
    if i < 20 then (b &&& c) ||| (not32 b &&& d)
    else if i < 40 then b ^^^ c ^^^ d
    else if i < 60 then (b &&& c) ||| (b &&& d) ||| (c &&& d)
    else b ^^^ c ^^^ d
  let k :=
    if i < 20 then 1518500249
    else if i < 40 then 1859775393
    else if i < 60 then 2400959708
    else 3395469782
  let temp := (rotl32 5 a + f + e + k + wi) % pow32
  (temp, a, rotl32 30 b, c, d)

/-- Process one 64-byte block, updating the five hash words. -/
def sha1Block (h : Nat × Nat × Nat × Nat × Nat) (block : List Nat) :
    Nat × Nat × Nat × Nat × Nat :=
  let w := sha1Extend (blockWords block).toArray
  let (h0, h1, h2, h3, h4) := h
  let (a, b, c, d, e) :=
    (List.range 80).foldl (fun s i => sha1Round s i (w.getD i 0)) h
  ((h0 + a) % pow32, (h1 + b) % pow32, (h2 + c) % pow32, (h3 + d) % pow32,
   (h4 + e) % pow32)

/-- The five 32-bit SHA-1 state words of a byte message. Inputs are masked to
byte range so the function is total on `List Nat`. -/
def sha1Words (msg : List Nat) : Nat × Nat × Nat × Nat × Nat :=
  (chunk64 (sha1Pad (msg.map (· % 256)))).foldl sha1Block
    (1732584193, 4023233417, 2562383102, 271733878, 3285377520)

/-- The sixteen lowercase hex digits; `fmt.Sprintf("%x", ...)` output alphabet. -/
def hexDigits : List Char :=
  ['0', '1', '2', '3', '4', '5', '6', '7', '8', '9'] ++
    ['a', 'b', 'c', 'd', 'e', 'f']

/-- The lowercase hex digit of a nibble. -/
def hexChar (n : Nat) : Char := hexDigits.getD n '0'

/-- Lowercase 8-hex-digit rendering of a 32-bit word, most significant first. -/
def wordHex (x : Nat) : List Char :=
  (List.range 8).map fun i => hexChar (x / 16 ^ (7 - i) % 16)

/-- Hex rendering of the five-word SHA-1 state. -/
def stateHex (t : Nat × Nat × Nat × Nat × Nat) : List Char :=
  wordHex t.1 ++ wordHex t.2.1 ++ wordHex t.2.2.1 ++ wordHex t.2.2.2.1 ++
    wordHex t.2.2.2.2

/-- `fmt.Sprintf("%x", sha1.Sum(msg))`: the lowercase 40-hex-char SHA-1 digest. -/
def sha1Hex (msg : List Nat) : String :=
  ⟨stateHex (sha1Words msg)⟩

/-! ### Go string byte view (UTF-8) -/

/-- UTF-8 encoding of one scalar value, as Go stores strings. -/
def utf8Bytes (c : Char) : List Nat :=
  let n := c.toNat
  if n < 128 then [n]
  else if n < 2048 then [192 + n / 64, 128 + n % 64]
  else if n < 65536 then
    [224 + n / 4096, 128 + n / 64 % 64, 128 + n % 64]
  else
    [240 + n / 262144, 128 + n / 4096 % 64, 128 + n / 64 % 64, 128 + n % 64]

/-- The UTF-8 bytes of a Go string. -/
def strBytes (s : String) : List Nat := s.data.flatMap utf8Bytes

/-! ## Go string primitives used by the sources -/

/-- `unicode.IsSpace`: Unicode white space, as used by `strings.TrimSpace`. -/
def goIsSpace (c : Char) : Bool :=
  let n := c.toNat
  n == 9 || n == 10 || n == 11 || n == 12 || n == 13 || n == 32 ||
  n == 133 || n == 160 || n == 5760 || (8192 ≤ n && n ≤ 8202) ||
  n == 8232 || n == 8233 || n == 8239 || n == 8287 || n == 12288

/-- `strings.TrimSpace`: drop white space from both ends. -/
def goTrimSpace (s : String) : String :=
  ⟨((s.data.dropWhile goIsSpace).reverse.dropWhile goIsSpace).reverse⟩

/-- Go `len` on a string counts its UTF-8 bytes. -/
def goLen (s : String) : Nat := (strBytes s).length

/-- SQL `hash LIKE p || '%'` on the `hash` column: a starts-with match. -/
def goHasPrefix (p s : String) : Bool := p.data.isPrefixOf s.data

/-- Go `hash[:10]` on an ASCII (hex) string: the first `n` characters. -/
def goTake (n : Nat) (s : String) : String := ⟨s.data.take n⟩

/-- `strings.Split(s, "/")` on the character list of `s`. -/
def splitSlash : List Char → List (List Char)
  | [] => [[]]
  | c :: rest =>
    match splitSlash rest with
    | [] => [[]]
    | p :: ps => if c = '/' then [] :: p :: ps else (c :: p) :: ps

/-- `strings.Split(s, "/")`. -/
def goSplit (s : String) : List String := (splitSlash s.data).map fun cs => ⟨cs⟩

/-! ## Attachment codec (`encoding/gob` of a `FileObject`)

`FileObject` is the structure stored in the S3 bucket (S3/codec source file):
filename, the `textproto.MIMEHeader` metadata map, declared size, the
`modifiedAt` timestamp assigned by the service, and the raw contents.

The embedding represents the Go map `Header` by its entry list *in the
iteration order the encoder happens to observe*: Go map iteration order is
unspecified, and `encoding/gob` writes map entries in exactly that order, so
two `FileObject` values whose `Header` lists are permutations of one another
denote the same Go value, while the encoder output depends on the list order.
`Modtime` (`time.Time`) is modelled as an integer instant.

The encoder output is a token stream (`List Nat`): strings are
length-prefixed character codes, integers are sign/magnitude, lists are
length-prefixed. This keeps gob's properties that matter here: the output is
a deterministic function of the observed value, every field participates,
map entries are written in iteration order, and decoding is a partial inverse
that fails on foreign byte streams. -/

structure FileObject where
  Filename : String
  Header : List (String × List String)
  Size : Int
  Modtime : Int
  Contents : List Nat
deriving DecidableEq

/-- The Go zero value `new(FileObject)` points at. -/
def zeroFileObject : FileObject := ⟨"", [], 0, 0, []⟩

def encodeString (s : String) : List Nat :=
  s.length :: s.data.map Char.toNat

def encodeInt (i : Int) : List Nat :=
  [if i < 0 then 1 else 0, i.natAbs]

def encodeStringList (l : List String) : List Nat :=
  l.length :: (l.map encodeString).flatten

def encodeHeaderEntry (e : String × List String) : List Nat :=
  encodeString e.1 ++ encodeStringList e.2

/-- Gob-encode a `FileObject`: every field is written, and the `Header` map's
entries are written in iteration order (the order of the modelled list). -/
def encodeFileObject (f : FileObject) : List Nat :=
  encodeString f.Filename ++
  (f.Header.length :: (f.Header.map encodeHeaderEntry).flatten) ++
  encodeInt f.Size ++ encodeInt f.Modtime ++
  (f.Contents.length :: f.Contents)

/-- Two modelled `FileObject`s denote the same Go value: all fields equal,
and the header entry lists are permutations (the same map). -/
def sameGoValue (f g : FileObject) : Prop :=
  f.Filename = g.Filename ∧ f.Header.Perm g.Header ∧ f.Size = g.Size ∧
  f.Modtime = g.Modtime ∧ f.Contents = g.Contents

/-! ### Decoder -/

def parseTok : List Nat → Option (Nat × List Nat)
  | [] => none
  | t :: rest => some (t, rest)

def parseTake : Nat → List Nat → Option (List Nat × List Nat)
  | 0, l => some ([], l)
  | _ + 1, [] => none
  | n + 1, t :: rest =>
    match parseTake n rest with
    | none => none
    | some (xs, r) => some (t :: xs, r)

def parseString (l : List Nat) : Option (String × List Nat) :=
  match parseTok l with
  | none => none
  | some (n, l) =>
    match parseTake n l with
    | none => none
    | some (cs, l) => some (⟨cs.map Char.ofNat⟩, l)

def parseInt (l : List Nat) : Option (Int × List Nat) :=
  match l with
  | sign :: mag :: rest =>
    some (if sign = 1 then -(mag : Int) else (mag : Int), rest)
  | _ => none

def parseListN (p : List Nat → Option (α × List Nat)) :
    Nat → List Nat → Option (List α × List Nat)
  | 0, l => some ([], l)
  | n + 1, l =>
    match p l with
    | none => none
    | some (x, l) =>
      match parseListN p n l with
      | none => none
      | some (xs, l) => some (x :: xs, l)

def parseStringList (l : List Nat) : Option (List String × List Nat) :=
  match parseTok l with
  | none => none
  | some (n, l) => parseListN parseString n l

def parseHeaderEntry (l : List Nat) : Option ((String × List String) × List Nat) :=
  match parseString l with
  | none => none
  | some (k, l) =>
    match parseStringList l with
    | none => none
    | some (vs, l) => some ((k, vs), l)

/-- Gob-decode a `FileObject`; `none` models a `gob` decode error on a byte
stream that is not a validly encoded `FileObject`. -/
def decodeFileObject (l : List Nat) : Option FileObject :=
  match parseString l with
  | none => none
  | some (fname, l) =>
    match parseTok l with
    | none => none
    | some (hn, l) =>
      match parseListN parseHeaderEntry hn l with
      | none => none
      | some (header, l) =>
        match parseInt l with
        | none => none
        | some (size, l) =>
          match parseInt l with
          | none => none
          | some (modtime, l) =>
            match parseTok l with
            | none => none
            | some (cn, l) =>
              match parseTake cn l with
              | none => none
              | some (contents, _) =>
                some ⟨fname, header, size, modtime, contents⟩

/-! ## Database layer (`SubmitUpload`, `GetUpload`, `isValidHex`)

The `Uploads` table is modelled as a list of rows in insertion order; its
`UNIQUE(hash)` constraint is the deduplication arbiter. The `LIKE`-prefix
query without `ORDER BY` is modelled as first match in list order. -/

/-- One row of the `Uploads` table (the serial `id` is the list position). -/
structure DbRow where
  hash : String
  body : String
  files : List String
  timestamp : Int
deriving DecidableEq

/-- `isValidHex` from the database source: every rune is `0-9`, `a-f` or
`A-F`. -/
def isValidHex (s : String) : Bool :=
  s.data.all fun r =>
    (48 ≤ r.toNat && r.toNat ≤ 57) || (97 ≤ r.toNat && r.toNat ≤ 102) ||
    (65 ≤ r.toNat && r.toNat ≤ 70)

/-- The SHA-1 hash `SubmitUpload` computes: the body and the
`filename/hash` pair strings are written into one buffer
(`strings.Join(pairs, "")` is concatenation) and digested. -/
def submissionHash (body : String) (pairs : List String) : String :=
  sha1Hex (strBytes (body ++ String.join pairs))

/-- `SubmitUpload`: hash the body plus pair strings, `INSERT` the row.
A `pq` unique violation (code 23505) — which the `UNIQUE(hash)` constraint
raises exactly when the hash is already present — is absorbed: the hash is
returned as if the insert succeeded and no row is added. `dbFault` models any
other database error, which is returned to the caller as an error. -/
def SubmitUpload (body : String) (pairs : List String) (dbNow : Int)
    (rows : List DbRow) (dbFault : Option String) :
    Except String (String × List DbRow) :=
  let hash := submissionHash body pairs
  match dbFault with
  | some e => .error e
  | none =>
    if rows.any fun r => r.hash == hash then .ok (hash, rows)
    else .ok (hash, rows ++ [⟨hash, body, pairs, dbNow⟩])

/-- The row `GetUpload` hands to the template, with the `files` entries
already split into names and hashes. -/
structure UploadModel where
  Hash : String
  Body : String
  FileNames : List String
  FileHashes : List String
  Timestamp : Int
deriving DecidableEq

inductive DbError
  /-- `ErrHashInvalid`. -/
  | hashInvalid
  /-- `sql.ErrNoRows` from `row.Scan` when the query matches nothing. -/
  | noRows
  /-- The Go panic raised by `parts[1]` when a `files` entry has no `/`. -/
  | panicIndex
deriving DecidableEq

/-- `parts[0]` of `strings.Split(file, "/")` (always exists). -/
def pairName (f : String) : String := ⟨(splitSlash f.data).headD []⟩

/-- `parts[1]` of `strings.Split(file, "/")`; `none` is the Go panic case. -/
def pairHash? (f : String) : Option String := (goSplit f)[1]?

/-- The loop in `GetUpload` separating filenames from hashes. -/
def extractFiles : List String → Option (List String × List String)
  | [] => some ([], [])
  | f :: fs =>
    match pairHash? f with
    | none => none
    | some h =>
      match extractFiles fs with
      | none => none
      | some (ns, hs) => some (pairName f :: ns, h :: hs)

/-- `GetUpload`: reject hashes that are not 10–40 hex characters, find the
first row whose hash starts with the argument, and split its `files`
entries. -/
def GetUpload (hash : String) (rows : List DbRow) :
    Except DbError UploadModel :=
  if goLen hash < 10 || 40 < goLen hash || !isValidHex hash then
    .error .hashInvalid
  else
    match rows.find? (fun r => goHasPrefix hash r.hash) with
    | none => .error .noRows
    | some r =>
      match extractFiles r.files with
      | none => .error .panicIndex
      | some (ns, hs) => .ok ⟨r.hash, r.body, ns, hs, r.timestamp⟩

/-! ## Object store (S3 bucket)

A flat key/blob map; `put` overwrites, modelled by shadowing (lookup takes the
most recent entry for a key). -/

abbrev ObjStore := List (String × List Nat)

def putObject (store : ObjStore) (key : String) (blob : List Nat) : ObjStore :=
  (key, blob) :: store

def getObject (store : ObjStore) (key : String) : Option (List Nat) :=
  ((List.find? (fun kv => kv.1 == key) store)).map fun kv => kv.2

/-! ## HTTP handlers (`main.go`) -/

/-- A `multipart.FileHeader` together with the bytes read from it. -/
structure FilePart where
  Filename : String
  Header : List (String × List String)
  Size : Int
  Contents : List Nat
deriving DecidableEq

/-- `NewFileObject(fileHeader, modtime)`: copy the header fields and the
contents, stamping the service-assigned modification time. -/
def NewFileObject (fh : FilePart) (modtime : Int) : FileObject :=
  ⟨fh.Filename, fh.Header, fh.Size, modtime, fh.Contents⟩

/-- The attachment loop of the `/submit` handler. `i` is the loop index,
`nows i` the value of the `time.Now()` call of iteration `i`, and `failAt i`
whether the S3 upload of attachment `i` fails. Returns the collected
`"filename/hash"` pair strings (or the error that aborted the loop) together
with the object store as left behind — uploads that succeeded before a
failure are not rolled back. -/
def uploadLoop (parts : List FilePart) (i : Nat) (nows : Nat → Int)
    (failAt : Nat → Bool) (store : ObjStore) :
    Except String (List String) × ObjStore :=
  match parts with
  | [] => (.ok [], store)
  | fh :: rest =>
    let fileObject := NewFileObject fh (nows i)
    let blob := encodeFileObject fileObject
    let hash := sha1Hex blob
    if failAt i then (.error "S3 object upload failed", store)
    else
      let r := uploadLoop rest (i + 1) nows failAt (putObject store hash blob)
      (r.1.map fun pairs => (goTrimSpace fh.Filename ++ "/" ++ hash) :: pairs,
       r.2)

instance {ε α : Type} [DecidableEq ε] [DecidableEq α] :
    DecidableEq (Except ε α) := fun x y =>
  match x, y with
  | .error e, .error f =>
    match decEq e f with
    | isTrue h => isTrue (h ▸ rfl)
    | isFalse h => isFalse fun hh => h (Except.error.inj hh)
  | .error _, .ok _ => isFalse fun hh => Except.noConfusion hh
  | .ok _, .error _ => isFalse fun hh => Except.noConfusion hh
  | .ok a, .ok b =>
    match decEq a b with
    | isTrue h => isTrue (h ▸ rfl)
    | isFalse h => isFalse fun hh => h (Except.ok.inj hh)

/-- What the `/submit` handler leaves behind: the JSON response (an HTTP
error status with a message, or the short id on success), the database rows
and the object store. -/
structure HandlerResult where
  resp : Except (Nat × String) String
  rows : List DbRow
  store : ObjStore

/-- The `POST /submit` handler: encode, hash and upload each attachment in
form order (any upload failure responds 500 and aborts before the database
insert), then `SubmitUpload` the body with the pair strings (an error there
responds 409), and answer with `hash[:10]` as the `id`. -/
def postSubmit (body : String) (parts : List FilePart) (nows : Nat → Int)
    (failAt : Nat → Bool) (dbNow : Int) (dbFault : Option String)
    (rows : List DbRow) (store : ObjStore) : HandlerResult :=
  let u := uploadLoop parts 0 nows failAt store
  match u.1 with
  | .error e => ⟨.error (500, e), rows, u.2⟩
  | .ok pairs =>
    match SubmitUpload body pairs dbNow rows dbFault with
    | .error e => ⟨.error (409, e), rows, u.2⟩
    | .ok (hash, rows') => ⟨.ok (goTake 10 hash), rows', u.2⟩

/-- The response of the `/download` handler. -/
inductive DownloadOutcome
  /-- `route404`. -/
  | notFound
  /-- `http.ServeContent` with the decoded filename, modtime and contents —
  an HTTP 200. -/
  | served (filename : String) (modtime : Int) (contents : List Nat)
deriving DecidableEq

/-- The `GET /download` handler. The empty-hash check calls `respondError`
but does *not* return (the first component records whether that 400 was
written). A download error or empty blob routes to 404. The blob is then
gob-decoded into a fresh zero `FileObject` with `decoder.Decode`'s error
discarded — on a decode failure the zero value is served. -/
def getDownload (hash : String) (store : ObjStore) (fetchFails : Bool) :
    Bool × DownloadOutcome :=
  let wrote400 := hash == ""
  let data? := if fetchFails then none else getObject store hash
  match data? with
  | none => (wrote400, .notFound)
  | some data =>
    if data.length == 0 then (wrote400, .notFound)
    else
      let file := (decodeFileObject data).getD zeroFileObject
      (wrote400, .served file.Filename file.Modtime file.Contents)

/-! ## Spec-side definitions (for the refinement-style claims) -/

/-- Modelled from the spec's words (§3 SubmissionRecord `hash`): the
lowercase hex 160-bit digest over the concatenation of the text body and all
`"filename/AttachmentKey"` pair strings, joined in submission order with no
extra separator. -/
def specSubmissionHash (body : String) (pairs : List (String × String)) :
    String :=
  sha1Hex (strBytes (body ++ String.join (pairs.map fun p => p.1 ++ "/" ++ p.2)))

/-- Modelled from the spec's words (§4.4 step 2): the
`(trimmed filename, AttachmentKey)` pairs of a submission, in order, where
the AttachmentKey is the hash of the encoded attachment built with the
service-assigned modification time. -/
def specPairs (parts : List FilePart) (i : Nat) (nows : Nat → Int) :
    List (String × String) :=
  match parts with
  | [] => []
  | fh :: rest =>
    (goTrimSpace fh.Filename, sha1Hex (encodeFileObject (NewFileObject fh (nows i)))) ::
      specPairs rest (i + 1) nows

/-! ## Model validation -/

/-- SHA-1 of the empty message is the standard test vector. -/
example : sha1Hex (strBytes "") = "da39a3ee5e6b4b0d3255bfef95601890afd80709" := by
  decide

/-- SHA-1 of `"abc"` is the standard test vector. -/
example : sha1Hex (strBytes "abc") = "a9993e364706816aba3e25717850c26c9cd0d89d" := by
  decide

/-! ## Codec round-trip lemmas -/

theorem parseTake_append (xs r : List Nat) :
    parseTake xs.length (xs ++ r) = some (xs, r) := by
  induction xs with
  | nil => rfl
  | cons x xs ih => simp [parseTake, ih]

theorem parseString_encode (s : String) (r : List Nat) :
    parseString (encodeString s ++ r) = some (s, r) := by
  have h1 : s.length = (s.data.map Char.toNat).length := by
    rw [List.length_map]; rfl
  have h2 : Char.ofNat ∘ Char.toNat = id := funext Char.ofNat_toNat
  simp only [parseString, encodeString, List.cons_append, parseTok, h1,
    parseTake_append, List.map_map, h2, List.map_id]

theorem parseInt_encode (i : Int) (r : List Nat) :
    parseInt (encodeInt i ++ r) = some (i, r) := by
  simp only [parseInt, encodeInt, List.cons_append, List.nil_append,
    Option.some.injEq, Prod.mk.injEq, and_true]
  split
  · rename_i h1
    have h : i < 0 := by by_contra hc; simp [hc] at h1
    omega
  · rename_i h1
    have h : ¬i < 0 := by intro hc; simp [hc] at h1
    omega

theorem parseListN_encode {α : Type} (p : List Nat → Option (α × List Nat))
    (enc : α → List Nat)
    (hp : ∀ x r, p (enc x ++ r) = some (x, r)) :
    ∀ (xs : List α) (r : List Nat),
      parseListN p xs.length ((xs.map enc).flatten ++ r) = some (xs, r) := by
  intro xs
  induction xs with
  | nil => intro r; rfl
  | cons x xs ih =>
    intro r
    simp only [List.map_cons, List.flatten_cons, List.length_cons,
      List.append_assoc]
    unfold parseListN
    simp only [hp, ih]

theorem parseStringList_encode (l : List String) (r : List Nat) :
    parseStringList (encodeStringList l ++ r) = some (l, r) := by
  unfold parseStringList encodeStringList parseTok
  simp only [List.cons_append]
  exact parseListN_encode parseString encodeString parseString_encode l r

theorem parseHeaderEntry_encode (e : String × List String) (r : List Nat) :
    parseHeaderEntry (encodeHeaderEntry e ++ r) = some (e, r) := by
  obtain ⟨k, vs⟩ := e
  simp only [parseHeaderEntry, encodeHeaderEntry, List.append_assoc,
    parseString_encode, parseStringList_encode]

theorem decode_encode_aux (f : FileObject) (r : List Nat) :
    decodeFileObject (encodeFileObject f ++ r) = some f := by
  obtain ⟨fn, hd, sz, mt, ct⟩ := f
  simp only [decodeFileObject, encodeFileObject, List.append_assoc,
    List.cons_append, parseString_encode, parseTok,
    parseListN_encode parseHeaderEntry encodeHeaderEntry parseHeaderEntry_encode,
    parseInt_encode, parseTake_append]

/-! ## `strings.Split` and hex-alphabet lemmas -/

theorem splitSlash_ne_nil (l : List Char) : splitSlash l ≠ [] := by
  cases l with
  | nil => simp [splitSlash]
  | cons c rest =>
    cases h : splitSlash rest with
    | nil => simp [splitSlash, h]
    | cons p ps =>
      simp only [splitSlash, h]
      split <;> simp

theorem splitSlash_no_slash (l : List Char) (h : ∀ c ∈ l, c ≠ '/') :
    splitSlash l = [l] := by
  induction l with
  | nil => rfl
  | cons c rest ih =>
    have hc : c ≠ '/' := h c (List.mem_cons_self c rest)
    have hrest : ∀ x ∈ rest, x ≠ '/' := fun x hx => h x (List.mem_cons_of_mem _ hx)
    simp [splitSlash, ih hrest, hc]

theorem splitSlash_append (a b : List Char) (h : ∀ c ∈ a, c ≠ '/') :
    splitSlash (a ++ '/' :: b) = a :: splitSlash b := by
  induction a with
  | nil =>
    simp only [List.nil_append, splitSlash]
    cases hb : splitSlash b with
    | nil => exact absurd hb (splitSlash_ne_nil b)
    | cons p ps => simp
  | cons c rest ih =>
    have hc : c ≠ '/' := h c (List.mem_cons_self c _)
    have hrest : ∀ x ∈ rest, x ≠ '/' :=
      fun x hx => h x (List.mem_cons_of_mem _ hx)
    simp [splitSlash, ih hrest, hc]

theorem getD_mem_or_eq {α : Type} (l : List α) (n : Nat) (d : α) :
    l.getD n d ∈ l ∨ l.getD n d = d := by
  induction l generalizing n with
  | nil => right; simp [List.getD]
  | cons x xs ih =>
    cases n with
    | zero => left; simp [List.getD]
    | succ m =>
      rcases ih m with h | h
      · left; simpa [List.getD] using List.mem_cons_of_mem x (by simpa [List.getD] using h)
      · right; simpa [List.getD] using h

theorem hexChar_ne_slash (n : Nat) : hexChar n ≠ '/' := by
  intro hcontra
  have h0 : hexChar n = hexDigits.getD n '0' := rfl
  rcases getD_mem_or_eq hexDigits n '0' with h | h
  · rw [← h0, hcontra] at h
    revert h; decide
  · rw [← h0, hcontra] at h
    revert h; decide

theorem stateHex_no_slash (t : Nat × Nat × Nat × Nat × Nat) :
    ∀ c ∈ stateHex t, c ≠ '/' := by
  intro c hc
  simp only [stateHex, wordHex, List.mem_append, List.mem_map,
    List.mem_range] at hc
  rcases hc with ((((⟨i, _, rfl⟩ | ⟨i, _, rfl⟩) | ⟨i, _, rfl⟩) | ⟨i, _, rfl⟩) |
    ⟨i, _, rfl⟩) <;> exact hexChar_ne_slash _

theorem sha1Hex_no_slash (m : List Nat) : ∀ c ∈ (sha1Hex m).data, c ≠ '/' :=
  fun c hc => stateHex_no_slash (sha1Words m) c hc

/-- Splitting a stored `"name/hexkey"` pair string recovers the name and the
key, provided the (trimmed) name itself has no slash. -/
theorem pair_roundtrip (name : String) (blob : List Nat)
    (h : ∀ c ∈ (goTrimSpace name).data, c ≠ '/') :
    pairName (goTrimSpace name ++ "/" ++ sha1Hex blob) = goTrimSpace name ∧
    pairHash? (goTrimSpace name ++ "/" ++ sha1Hex blob) = some (sha1Hex blob) := by
  have hdata : (goTrimSpace name ++ "/" ++ sha1Hex blob).data
      = (goTrimSpace name).data ++ '/' :: (sha1Hex blob).data := by
    simp [String.data_append]
  have hsplit : splitSlash ((goTrimSpace name).data ++ '/' :: (sha1Hex blob).data)
      = (goTrimSpace name).data :: [(sha1Hex blob).data] := by
    rw [splitSlash_append _ _ h, splitSlash_no_slash _ (sha1Hex_no_slash blob)]
  constructor
  · simp [pairName, hdata, hsplit]
  · simp [pairHash?, goSplit, hdata, hsplit]

/-! ## Upload-loop lemmas -/

/-- When no S3 upload fails, the loop collects exactly the
`"trimmedName/attachmentKey"` pair strings of the spec, in form order. -/
theorem uploadLoop_ok (parts : List FilePart) (nows : Nat → Int)
    (failAt : Nat → Bool) (hfail : ∀ j, failAt j = false) :
    ∀ (i : Nat) (store : ObjStore),
      (uploadLoop parts i nows failAt store).1 =
        .ok ((specPairs parts i nows).map fun p => p.1 ++ "/" ++ p.2) := by
  induction parts with
  | nil => intro i store; rfl
  | cons fh rest ih =>
    intro i store
    simp [uploadLoop, hfail i, specPairs, ih (i + 1), Except.map]

/-- If some attachment's upload fails, the loop aborts with the S3 error. -/
theorem uploadLoop_fails (parts : List FilePart) (nows : Nat → Int)
    (failAt : Nat → Bool) :
    ∀ (i : Nat) (store : ObjStore),
      (∃ k, k < parts.length ∧ failAt (i + k) = true) →
      (uploadLoop parts i nows failAt store).1 =
        .error "S3 object upload failed" := by
  induction parts with
  | nil =>
    intro i store h
    obtain ⟨k, hk, _⟩ := h
    simp at hk
  | cons fh rest ih =>
    intro i store h
    obtain ⟨k, hk, hfk⟩ := h
    cases hfi : failAt i with
    | true => simp [uploadLoop, hfi]
    | false =>
      have hkne : k ≠ 0 := by
        rintro rfl
        rw [Nat.add_zero] at hfk
        rw [hfi] at hfk
        exact Bool.false_ne_true hfk
      have h' : ∃ k2, k2 < rest.length ∧ failAt (i + 1 + k2) = true := by
        refine ⟨k - 1, ?_, ?_⟩
        · simp only [List.length_cons] at hk; omega
        · have heq : i + 1 + (k - 1) = i + k := by omega
          rw [heq]; exact hfk
      simp [uploadLoop, hfi, ih (i + 1) _ h', Except.map]

/-- The loop never removes anything from the object store: the store it
leaves behind is the store it was given with zero or more blobs pushed on
top. -/
theorem uploadLoop_store (parts : List FilePart) (nows : Nat → Int)
    (failAt : Nat → Bool) :
    ∀ (i : Nat) (store : ObjStore),
      ∃ new, (uploadLoop parts i nows failAt store).2 = new ++ store := by
  induction parts with
  | nil => intro i store; exact ⟨[], rfl⟩
  | cons fh rest ih =>
    intro i store
    cases hfi : failAt i with
    | true => exact ⟨[], by simp [uploadLoop, hfi]⟩
    | false =>
      obtain ⟨new, hnew⟩ := ih (i + 1)
        (putObject store (sha1Hex (encodeFileObject (NewFileObject fh (nows i))))
          (encodeFileObject (NewFileObject fh (nows i))))
      refine ⟨new ++ [(sha1Hex (encodeFileObject (NewFileObject fh (nows i))),
        encodeFileObject (NewFileObject fh (nows i)))], ?_⟩
      simp only [uploadLoop, hfi, Bool.false_eq_true, if_false]
      rw [hnew]
      simp [putObject]

/-! ## Claim theorems -/

/-- C7: for every Attachment value (filename, metadata header, size,
modification time, content), decoding the bytes produced by encoding it
yields the value back: `decode(encode(a)) = a`. -/
theorem c7_codec_roundtrip (f : FileObject) :
    decodeFileObject (encodeFileObject f) = some f := by
  simpa using decode_encode_aux f []

/-- C10: `GetUpload` rebuilds each stored pair string by splitting on `/`
and taking the first two segments; on pairs `trimmedName ++ "/" ++ key`
whose trimmed filename is slash-free (keys are hex, hence slash-free), the
extraction returns exactly the original trimmed filenames and attachment
keys, in order. -/
theorem c10_extract_inverts_pairs (entries : List (String × List Nat))
    (h : ∀ e ∈ entries, ∀ c ∈ (goTrimSpace e.1).data, c ≠ '/') :
    extractFiles (entries.map fun e => goTrimSpace e.1 ++ "/" ++ sha1Hex e.2) =
      some (entries.map fun e => goTrimSpace e.1,
            entries.map fun e => sha1Hex e.2) := by
  induction entries with
  | nil => rfl
  | cons e es ih =>
    have h1 := pair_roundtrip e.1 e.2 (h e (List.mem_cons_self e es))
    have h2 : ∀ x ∈ es, ∀ c ∈ (goTrimSpace x.1).data, c ≠ '/' :=
      fun x hx => h x (List.mem_cons_of_mem _ hx)
    simp only [List.map_cons, extractFiles, h1.1, h1.2, ih h2]

/-- Witness for C10 at a concrete pair list. -/
theorem c10_extract_inverts_pairs_witness :
    extractFiles ([("a.txt", [97, 98, 99])].map fun e =>
        goTrimSpace e.1 ++ "/" ++ sha1Hex e.2) =
      some ([("a.txt", [97, 98, 99])].map fun e => goTrimSpace e.1,
            [("a.txt", [97, 98, 99])].map fun e => sha1Hex e.2) :=
  c10_extract_inverts_pairs [("a.txt", [97, 98, 99])] (by decide)

/-- C5: an `INSERT` whose hash collides with an existing row is absorbed:
`SubmitUpload` returns the (existing) hash as a success and adds no
duplicate row; any other database error is returned as an error. -/
theorem c5_insert_collision_absorbed :
    (∀ (body : String) (pairs : List String) (dbNow : Int) (rows : List DbRow),
        (∃ r ∈ rows, r.hash = submissionHash body pairs) →
        SubmitUpload body pairs dbNow rows none =
          .ok (submissionHash body pairs, rows)) ∧
    (∀ (body : String) (pairs : List String) (dbNow : Int) (rows : List DbRow)
        (e : String),
        SubmitUpload body pairs dbNow rows (some e) = .error e) := by
  constructor
  · intro body pairs dbNow rows hex
    have hany : (rows.any fun r => r.hash == submissionHash body pairs) = true := by
      obtain ⟨r, hr, hh⟩ := hex
      exact List.any_eq_true.mpr ⟨r, hr, by simp [hh]⟩
    simp [SubmitUpload, hany]
  · intro body pairs dbNow rows e
    rfl

/-- Witness for C5 at a concrete colliding store. -/
theorem c5_insert_collision_absorbed_witness :
    SubmitUpload "x" [] 5 [⟨submissionHash "x" [], "x", [], 3⟩] none =
      .ok (submissionHash "x" [], [⟨submissionHash "x" [], "x", [], 3⟩]) :=
  c5_insert_collision_absorbed.1 "x" [] 5 _
    ⟨⟨submissionHash "x" [], "x", [], 3⟩, List.mem_singleton_self _, rfl⟩

/-- C6: `GetUpload` rejects with `ErrHashInvalid` exactly the prefixes that
are not 10–40 characters of hex; a well-formed prefix matching no stored
hash yields the no-rows (not-found) error; and a successful lookup returns
a record whose hash starts with the prefix. -/
theorem c6_getupload_validation :
    (∀ (s : String) (rows : List DbRow),
        GetUpload s rows = .error .hashInvalid ↔
          goLen s < 10 ∨ 40 < goLen s ∨ isValidHex s = false) ∧
    (∀ (s : String) (rows : List DbRow),
        ¬(goLen s < 10 ∨ 40 < goLen s ∨ isValidHex s = false) →
        (∀ r ∈ rows, goHasPrefix s r.hash = false) →
        GetUpload s rows = .error .noRows) ∧
    (∀ (s : String) (rows : List DbRow) (v : UploadModel),
        GetUpload s rows = .ok v → goHasPrefix s v.Hash = true) := by
  refine ⟨?_, ?_, ?_⟩
  · intro s rows
    simp only [GetUpload]
    split
    · rename_i hb
      simp only [Bool.or_eq_true, decide_eq_true_eq, Bool.not_eq_true', or_assoc] at hb
      exact ⟨fun _ => hb, fun _ => rfl⟩
    · rename_i hb
      simp only [Bool.or_eq_true, decide_eq_true_eq, Bool.not_eq_true', or_assoc] at hb
      constructor
      · intro hEq
        exfalso
        split at hEq
        · simp at hEq
        · split at hEq <;> simp at hEq
      · intro hc
        exact absurd hc hb
  · intro s rows hval hnone
    simp only [GetUpload]
    split
    · rename_i hb
      simp only [Bool.or_eq_true, decide_eq_true_eq, Bool.not_eq_true', or_assoc] at hb
      exact absurd hb hval
    · have hfind : rows.find? (fun r => goHasPrefix s r.hash) = none :=
        List.find?_eq_none.mpr fun x hx => by simp [hnone x hx]
      rw [hfind]
  · intro s rows v hok
    simp only [GetUpload] at hok
    split at hok
    · exact Except.noConfusion hok
    · split at hok
      · exact Except.noConfusion hok
      · rename_i r hr
        split at hok
        · exact Except.noConfusion hok
        · have hv := Except.ok.inj hok
          have hp := List.find?_some hr
          rw [← hv]
          simpa using hp

/-- Witness for C6: a valid 10-hex-char prefix on an empty store is
not-found, and the invalid-input characterization at the empty prefix. -/
theorem c6_getupload_validation_witness :
    GetUpload "0123456789" [] = .error .noRows ∧
    (GetUpload "" [] = .error .hashInvalid ↔
      goLen "" < 10 ∨ 40 < goLen "" ∨ isValidHex "" = false) :=
  ⟨c6_getupload_validation.2.1 "0123456789" [] (by decide) (by decide),
   c6_getupload_validation.1 "" []⟩

/-- C4: with every upload succeeding, the `/submit` handler stores a row
whose hash is the SHA-1 hex digest of the body concatenated with the
`"trimmedFilename/AttachmentKey"` pair strings in form order (spec-side
formula `specSubmissionHash`), and answers with exactly its first 10 hex
characters. -/
theorem c4_submission_hash_formula (body : String) (parts : List FilePart)
    (nows : Nat → Int) (failAt : Nat → Bool) (dbNow : Int)
    (rows : List DbRow) (store : ObjStore)
    (hfail : ∀ j, failAt j = false) :
    (postSubmit body parts nows failAt dbNow none rows store).resp =
      .ok (goTake 10 (specSubmissionHash body (specPairs parts 0 nows))) ∧
    ∀ r ∈ (postSubmit body parts nows failAt dbNow none rows store).rows,
      r ∉ rows → r.hash = specSubmissionHash body (specPairs parts 0 nows) := by
  have hu := uploadLoop_ok parts nows failAt hfail 0 store
  cases hany : rows.any (fun r => r.hash == submissionHash body
      ((specPairs parts 0 nows).map fun p => p.1 ++ "/" ++ p.2)) with
  | true =>
    have hps : postSubmit body parts nows failAt dbNow none rows store =
        ⟨.ok (goTake 10 (submissionHash body
          ((specPairs parts 0 nows).map fun p => p.1 ++ "/" ++ p.2))), rows,
          (uploadLoop parts 0 nows failAt store).2⟩ := by
      simp only [postSubmit, hu, SubmitUpload, hany, if_true]
    rw [hps]
    exact ⟨rfl, fun r hr hnr => absurd hr hnr⟩
  | false =>
    have hps : postSubmit body parts nows failAt dbNow none rows store =
        ⟨.ok (goTake 10 (submissionHash body
          ((specPairs parts 0 nows).map fun p => p.1 ++ "/" ++ p.2))),
          rows ++ [⟨submissionHash body
              ((specPairs parts 0 nows).map fun p => p.1 ++ "/" ++ p.2), body,
            (specPairs parts 0 nows).map fun p => p.1 ++ "/" ++ p.2, dbNow⟩],
          (uploadLoop parts 0 nows failAt store).2⟩ := by
      simp only [postSubmit, hu, SubmitUpload, hany, Bool.false_eq_true,
        if_false]
    rw [hps]
    refine ⟨rfl, ?_⟩
    intro r hr hnr
    rcases List.mem_append.mp hr with h | h
    · exact absurd h hnr
    · rcases List.mem_singleton.mp h with rfl
      rfl

/-- Witness for C4 at a concrete one-attachment submission. -/
theorem c4_submission_hash_formula_witness :
    (postSubmit "hello" [⟨"a.txt", [("K", ["v"])], 3, [97, 98, 99]⟩]
        (fun _ => 7) (fun _ => false) 9 none [] []).resp =
      .ok (goTake 10 (specSubmissionHash "hello"
        (specPairs [⟨"a.txt", [("K", ["v"])], 3, [97, 98, 99]⟩] 0
          (fun _ => 7)))) ∧
    ∀ r ∈ (postSubmit "hello" [⟨"a.txt", [("K", ["v"])], 3, [97, 98, 99]⟩]
        (fun _ => 7) (fun _ => false) 9 none [] []).rows,
      r ∉ ([] : List DbRow) →
        r.hash = specSubmissionHash "hello"
          (specPairs [⟨"a.txt", [("K", ["v"])], 3, [97, 98, 99]⟩] 0
            (fun _ => 7)) :=
  c4_submission_hash_formula "hello" [⟨"a.txt", [("K", ["v"])], 3, [97, 98, 99]⟩]
    (fun _ => 7) (fun _ => false) 9 [] [] (fun _ => rfl)

/-- C8: if any attachment upload fails, the handler responds with the 500
S3 error before `SubmitUpload` is reached: no row is inserted, while the
object store keeps whatever the earlier uploads already put (nothing is
rolled back). -/
theorem c8_upload_failure_aborts (body : String) (parts : List FilePart)
    (nows : Nat → Int) (failAt : Nat → Bool) (dbNow : Int)
    (dbFault : Option String) (rows : List DbRow) (store : ObjStore)
    (hfail : ∃ i, i < parts.length ∧ failAt i = true) :
    (postSubmit body parts nows failAt dbNow dbFault rows store).resp =
      .error (500, "S3 object upload failed") ∧
    (postSubmit body parts nows failAt dbNow dbFault rows store).rows = rows ∧
    ∃ new, (postSubmit body parts nows failAt dbNow dbFault rows store).store =
      new ++ store := by
  have hu : (uploadLoop parts 0 nows failAt store).1 =
      .error "S3 object upload failed" := by
    apply uploadLoop_fails
    obtain ⟨i, hi, hf⟩ := hfail
    exact ⟨i, hi, by simpa using hf⟩
  obtain ⟨new, hnew⟩ := uploadLoop_store parts nows failAt 0 store
  exact ⟨by simp [postSubmit, hu], by simp [postSubmit, hu],
    ⟨new, by simp [postSubmit, hu, hnew]⟩⟩

/-- Witness for C8: the second of three uploads fails. -/
theorem c8_upload_failure_aborts_witness :
    (postSubmit "b" [⟨"f0", [], 1, [48]⟩, ⟨"f1", [], 1, [49]⟩,
        ⟨"f2", [], 1, [50]⟩] (fun _ => 0) (fun j => j == 1) 7 none [] []).resp =
      .error (500, "S3 object upload failed") ∧
    (postSubmit "b" [⟨"f0", [], 1, [48]⟩, ⟨"f1", [], 1, [49]⟩,
        ⟨"f2", [], 1, [50]⟩] (fun _ => 0) (fun j => j == 1) 7 none [] []).rows =
      [] ∧
    ∃ new, (postSubmit "b" [⟨"f0", [], 1, [48]⟩, ⟨"f1", [], 1, [49]⟩,
        ⟨"f2", [], 1, [50]⟩] (fun _ => 0) (fun j => j == 1) 7 none [] []).store =
      new ++ [] :=
  c8_upload_failure_aborts "b" [⟨"f0", [], 1, [48]⟩, ⟨"f1", [], 1, [49]⟩,
    ⟨"f2", [], 1, [50]⟩] (fun _ => 0) (fun j => j == 1) 7 none [] []
    ⟨1, by decide, rfl⟩

/-- C2 (code bug): the `/submit` handler performs no empty-submission
validation. Submitting an empty body with no attachments is accepted: the
handler answers 200 with id `"da39a3ee5e"` (the truncated SHA-1 of the empty
string) and inserts a `SubmissionRecord` — the storage layer is touched. -/
theorem c2_empty_submission_inserted :
    (postSubmit "" [] (fun _ => 0) (fun _ => false) 7 none [] []).resp =
      .ok "da39a3ee5e" ∧
    (postSubmit "" [] (fun _ => 0) (fun _ => false) 7 none [] []).rows =
      [⟨"da39a3ee5e6b4b0d3255bfef95601890afd80709", "", [], 7⟩] := by
  exact ⟨by decide, by decide⟩

/-- C3 (code bug): `encoding/gob` writes the `Header` map in Go's
unspecified iteration order, so the same `FileObject` value (the permuted
entry lists denote the same map) can encode to different bytes across two
runs, and the two blobs hash to different attachment keys. -/
theorem c3_encoding_not_deterministic :
    sameGoValue ⟨"a.txt", [("A", ["1"]), ("B", ["2"])], 3, 5, [97]⟩
        ⟨"a.txt", [("B", ["2"]), ("A", ["1"])], 3, 5, [97]⟩ ∧
    encodeFileObject ⟨"a.txt", [("A", ["1"]), ("B", ["2"])], 3, 5, [97]⟩ ≠
      encodeFileObject ⟨"a.txt", [("B", ["2"]), ("A", ["1"])], 3, 5, [97]⟩ ∧
    sha1Hex (encodeFileObject
        ⟨"a.txt", [("A", ["1"]), ("B", ["2"])], 3, 5, [97]⟩) ≠
      sha1Hex (encodeFileObject
        ⟨"a.txt", [("B", ["2"]), ("A", ["1"])], 3, 5, [97]⟩) := by
  exact ⟨⟨rfl, List.Perm.swap _ _ _, rfl, rfl, rfl⟩, by decide, by decide⟩

/-- C9 (code bug): the `/download` handler maps fetch failures and missing
blobs to 404, but ignores the gob decode error: a stored blob that does not
decode is served as an HTTP 200 carrying the zero `FileObject` (empty
filename, empty contents) instead of a not-found response. -/
theorem c9_decode_failure_served :
    decodeFileObject [255] = none ∧
    getDownload "0000000000000000000000000000000000000000"
        [("0000000000000000000000000000000000000000", [255])] false =
      (false, .served "" 0 []) ∧
    getDownload "0000000000000000000000000000000000000000" [] false =
      (false, .notFound) ∧
    getDownload "0000000000000000000000000000000000000000"
        [("0000000000000000000000000000000000000000", [255])] true =
      (false, .notFound) := by
  exact ⟨by decide, by decide, by decide, by decide⟩

/-- C1 (counterexample): submitting the same `(body, attachments)` input
twice, with the service assigning a different `modifiedAt` on the second
run (`time.Now()` has moved), yields two different short hashes and two
`SubmissionRecord`s: the duplicate is not absorbed. -/
theorem c1_submit_twice_differs :
    (postSubmit "hi" [⟨"a.txt", [], 3, [97]⟩] (fun _ => 0) (fun _ => false) 7
        none [] []).resp ≠
      (postSubmit "hi" [⟨"a.txt", [], 3, [97]⟩] (fun _ => 1) (fun _ => false) 8
        none (postSubmit "hi" [⟨"a.txt", [], 3, [97]⟩] (fun _ => 0)
          (fun _ => false) 7 none [] []).rows
        (postSubmit "hi" [⟨"a.txt", [], 3, [97]⟩] (fun _ => 0) (fun _ => false)
          7 none [] []).store).resp ∧
    (postSubmit "hi" [⟨"a.txt", [], 3, [97]⟩] (fun _ => 1) (fun _ => false) 8
        none (postSubmit "hi" [⟨"a.txt", [], 3, [97]⟩] (fun _ => 0)
          (fun _ => false) 7 none [] []).rows
        (postSubmit "hi" [⟨"a.txt", [], 3, [97]⟩] (fun _ => 0) (fun _ => false)
          7 none [] []).store).rows.length = 2 := by
  exact ⟨by decide, by decide⟩

/-- C1 (amended): when the two runs produce identical encoded attachments —
modelled by both runs using the same service-assigned modification times —
submitting the same `(body, attachments)` twice yields the same short id
both times and exactly one new `SubmissionRecord`; the second insert is
absorbed by the uniqueness constraint. -/
theorem c1_idempotent_when_encodings_agree (body : String)
    (parts : List FilePart) (nows : Nat → Int) (failAt : Nat → Bool)
    (dbNow1 dbNow2 : Int) (rows : List DbRow) (store : ObjStore)
    (hfail : ∀ j, failAt j = false)
    (hfresh : ∀ r ∈ rows,
      r.hash ≠ specSubmissionHash body (specPairs parts 0 nows)) :
    ∃ id,
      (postSubmit body parts nows failAt dbNow1 none rows store).resp =
        .ok id ∧
      (postSubmit body parts nows failAt dbNow2 none
          (postSubmit body parts nows failAt dbNow1 none rows store).rows
          (postSubmit body parts nows failAt dbNow1 none rows store).store).resp
        = .ok id ∧
      (postSubmit body parts nows failAt dbNow2 none
          (postSubmit body parts nows failAt dbNow1 none rows store).rows
          (postSubmit body parts nows failAt dbNow1 none rows store).store).rows
        = (postSubmit body parts nows failAt dbNow1 none rows store).rows ∧
      (postSubmit body parts nows failAt dbNow1 none rows store).rows.length
        = rows.length + 1 := by
  have hu1 := uploadLoop_ok parts nows failAt hfail 0 store
  have hu2 := uploadLoop_ok parts nows failAt hfail 0
    (uploadLoop parts 0 nows failAt store).2
  have hany1 : (rows.any fun r => r.hash == submissionHash body
      ((specPairs parts 0 nows).map fun p => p.1 ++ "/" ++ p.2)) = false := by
    rw [List.any_eq_false]
    intro r hr
    simpa using hfresh r hr
  have h1 : postSubmit body parts nows failAt dbNow1 none rows store =
      ⟨.ok (goTake 10 (submissionHash body
          ((specPairs parts 0 nows).map fun p => p.1 ++ "/" ++ p.2))),
        rows ++ [⟨submissionHash body
            ((specPairs parts 0 nows).map fun p => p.1 ++ "/" ++ p.2), body,
          (specPairs parts 0 nows).map fun p => p.1 ++ "/" ++ p.2, dbNow1⟩],
        (uploadLoop parts 0 nows failAt store).2⟩ := by
    simp only [postSubmit, hu1, SubmitUpload, hany1, Bool.false_eq_true,
      if_false]
  have hany2 : ((rows ++ [(⟨submissionHash body
      ((specPairs parts 0 nows).map fun p => p.1 ++ "/" ++ p.2), body,
      (specPairs parts 0 nows).map fun p => p.1 ++ "/" ++ p.2,
      dbNow1⟩ : DbRow)]).any
      fun r => r.hash == submissionHash body
        ((specPairs parts 0 nows).map fun p => p.1 ++ "/" ++ p.2)) = true := by
    simp [List.any_append]
  have h2 : postSubmit body parts nows failAt dbNow2 none
      (rows ++ [⟨submissionHash body
          ((specPairs parts 0 nows).map fun p => p.1 ++ "/" ++ p.2), body,
        (specPairs parts 0 nows).map fun p => p.1 ++ "/" ++ p.2, dbNow1⟩])
      (uploadLoop parts 0 nows failAt store).2 =
      ⟨.ok (goTake 10 (submissionHash body
          ((specPairs parts 0 nows).map fun p => p.1 ++ "/" ++ p.2))),
        rows ++ [⟨submissionHash body
            ((specPairs parts 0 nows).map fun p => p.1 ++ "/" ++ p.2), body,
          (specPairs parts 0 nows).map fun p => p.1 ++ "/" ++ p.2, dbNow1⟩],
        (uploadLoop parts 0 nows failAt
          (uploadLoop parts 0 nows failAt store).2).2⟩ := by
    simp only [postSubmit, hu2, SubmitUpload, hany2, if_true]
  refine ⟨goTake 10 (submissionHash body
    ((specPairs parts 0 nows).map fun p => p.1 ++ "/" ++ p.2)), ?_, ?_, ?_, ?_⟩
  · rw [h1]
  · rw [h1, h2]
  · rw [h1, h2]
  · rw [h1]
    simp

/-- Witness for the amended C1 at a concrete repeated submission. -/
theorem c1_idempotent_witness :
    ∃ id,
      (postSubmit "hi" [⟨"a.txt", [], 3, [97]⟩] (fun _ => 0) (fun _ => false)
          7 none [] []).resp = .ok id ∧
      (postSubmit "hi" [⟨"a.txt", [], 3, [97]⟩] (fun _ => 0) (fun _ => false)
          8 none (postSubmit "hi" [⟨"a.txt", [], 3, [97]⟩] (fun _ => 0)
            (fun _ => false) 7 none [] []).rows
          (postSubmit "hi" [⟨"a.txt", [], 3, [97]⟩] (fun _ => 0)
            (fun _ => false) 7 none [] []).store).resp = .ok id ∧
      (postSubmit "hi" [⟨"a.txt", [], 3, [97]⟩] (fun _ => 0) (fun _ => false)
          8 none (postSubmit "hi" [⟨"a.txt", [], 3, [97]⟩] (fun _ => 0)
            (fun _ => false) 7 none [] []).rows
          (postSubmit "hi" [⟨"a.txt", [], 3, [97]⟩] (fun _ => 0)
            (fun _ => false) 7 none [] []).store).rows =
        (postSubmit "hi" [⟨"a.txt", [], 3, [97]⟩] (fun _ => 0) (fun _ => false)
          7 none [] []).rows ∧
      (postSubmit "hi" [⟨"a.txt", [], 3, [97]⟩] (fun _ => 0) (fun _ => false)
          7 none [] []).rows.length = ([] : List DbRow).length + 1 :=
  c1_idempotent_when_encodings_agree "hi" [⟨"a.txt", [], 3, [97]⟩] (fun _ => 0)
    (fun _ => false) 7 8 [] [] (fun _ => rfl)
    (fun r hr => absurd hr (List.not_mem_nil r))

end Copycat
